import Mathlib

/-!
Shallow embedding of the divergloss glossary-construction core
(`dgproc/dg/dset.py` and `dgproc/dg/construct.py`), together with proofs
of the specified properties of the diversity-set index, the embedded
selector resolver, the duplicate-id scan and the post-DTD referential
validator.

Strings are modelled as lists of characters (`Str`), language and
environment keys as `Option Str` (with `none` standing for Python's
`None`, the null language/environment).  Python dictionaries are
modelled as association lists preserving insertion order; dictionary
lookup ignores the order, and wherever the source iterates a dictionary
(whose order CPython 2 leaves unspecified) the model fixes insertion
order as one admissible determinization.  Functions that can raise in
Python return `Except`.
-/

/-- Characters of a Python string. -/
abbrev Str := List Char

/-- A language or environment key; `none` is Python's `None`
(the null language / null environment). -/
abbrev Key := Option Str

/-- Association list standing for a Python dict (insertion order kept). -/
abbrev ALst (κ ω : Type) := List (κ × ω)

/-- Dict lookup: `d[k]` as an `Option` (Python raises `KeyError` on `none`;
callers model that explicitly). -/
def alGet [DecidableEq κ] : ALst κ ω → κ → Option ω
  | [], _ => none
  | (k, v) :: r, k' => if k = k' then some v else alGet r k'

/-- Dict assignment `d[k] = v`: replace in place, else append. -/
def alSet [DecidableEq κ] : ALst κ ω → κ → ω → ALst κ ω
  | [], k, v => [(k, v)]
  | (k0, v0) :: r, k, v =>
      if k0 = k then (k0, v) :: r else (k0, v0) :: alSet r k v

/-- Dict removal `d.pop(k)` (the mapping part; the popped value is read
with `alGet` beforehand). -/
def alRemove [DecidableEq κ] : ALst κ ω → κ → ALst κ ω
  | [], _ => []
  | (k0, v0) :: r, k => if k0 = k then r else (k0, v0) :: alRemove r k

/-- The keys of a dict, in insertion order. -/
def alKeys (d : ALst κ ω) : List κ := d.map Prod.fst

/-- Set union keeping first-seen order (`set.update` where iteration
order is determinized to insertion order). -/
def listUnion [DecidableEq α] (xs ys : List α) : List α :=
  ys.foldl (fun acc y => if y ∈ acc then acc else acc ++ [y]) xs

/-- Python `s.split(c)` for a one-character separator: splits at every
occurrence, keeping empty chunks (`"".split(c) == [""]`). -/
def splitOnChar (c : Char) : Str → List Str
  | [] => [[]]
  | a :: r =>
      if a = c then [] :: splitOnChar c r
      else
        match splitOnChar c r with
        | [] => [[a]]
        | s :: ss => (a :: s) :: ss

/-- Python `s.split()` (no argument): whitespace-separated tokens,
empty tokens dropped. -/
def splitWS (s : Str) : List Str :=
  (s.splitOnP (fun c => c.isWhitespace)).filter (· ≠ [])

/-- First occurrence of `c`: `some (before, after)`, or `none` when `c`
does not occur (Python `s.find(c)` returning `-1`). -/
def splitAtChar (c : Char) : Str → Option (Str × Str)
  | [] => none
  | a :: r =>
      if a = c then some ([], r)
      else
        match splitAtChar c r with
        | none => none
        | some (h, t) => some (a :: h, t)

/-- Python `seg.replace("~~", "~")`: left-to-right, non-overlapping. -/
def unescapeTildes : Str → Str
  | '~' :: '~' :: r => '~' :: unescapeTildes r
  | a :: r => a :: unescapeTildes r
  | [] => []

/-- Number of occurrences of a character. -/
def countChar (c : Char) (s : Str) : Nat := s.count c

/-- `_attributes` (`construct.py`): scalar attribute value, or the
supplied default when the markup attribute is absent.  For `lang` the
default passed by the node constructors is `gloss.lang`. -/
def attrScalar (attr : Option Str) (defval : Key) : Key :=
  match attr with
  | some v => some v
  | none => defval

/-- `_attrib_lists` (`construct.py`): list attribute, split on
whitespace, or the supplied default list when absent.  For `env` the
default passed by the node constructors is `gloss.env`. -/
def attrList (attr : Option Str) (deflst : List Key) : List Key :=
  match attr with
  | some v => (splitWS v).map some
  | none => deflst

/-- One ancestor on a parent chain, as seen by `Dset._parent_att`:
`lang`/`env` are `some` exactly when `hasattr(parent, att)` holds, and
then carry `getattr(parent, att)` (which may itself be the null
language or an environment list). -/
structure AttBag where
  lang : Option Key := none
  env : Option (List Key) := none
deriving DecidableEq, Repr

/-- `Dset._parent_att`: walk the parent chain and return the attribute
of the nearest ancestor that has it, else the default. -/
def parentAtt (chain : List AttBag) (get : AttBag → Option α) (defval : α) : α :=
  match chain with
  | [] => defval
  | b :: r =>
      match get b with
      | some v => v
      | none => parentAtt r get defval

/-- A normalized text segment (`construct.py` `Text` contents):
a plain string, a nested `Text` sub-list, or — after embedded-selector
normalization — an environment→substring dictionary (`DictWProps`)
remembering the unparsed selector string. -/
inductive TSeg where
  | str (s : Str)
  | sub (t : List TSeg)
  | sel (entries : ALst Key Str) (unparsed : Str)

/-- A d-set–eligible glossary node: the attributes `Dset.add`,
`Dset.__call__` and `_res_embsel` read (`lang`, `env`, `text`; the
node's other fields are irrelevant to these operations and a deep copy
preserves them unchanged). -/
structure TObj where
  lang : Key := none
  env : List Key := []
  text : List TSeg := []

mutual
/-- Decidable equality of text segments (needed to evaluate closed
statements about resolver outputs). -/
def TSeg.decEq : (a b : TSeg) → Decidable (a = b)
  | .str a, .str b =>
      if h : a = b then .isTrue (by rw [h])
      else .isFalse (by intro he; cases he; exact h rfl)
  | .str _, .sub _ => .isFalse (by intro he; cases he)
  | .str _, .sel _ _ => .isFalse (by intro he; cases he)
  | .sub _, .str _ => .isFalse (by intro he; cases he)
  | .sub a, .sub b =>
      match TSeg.decEqL a b with
      | .isTrue h => .isTrue (by rw [h])
      | .isFalse h => .isFalse (by intro he; injection he; contradiction)
  | .sub _, .sel _ _ => .isFalse (by intro he; cases he)
  | .sel _ _, .str _ => .isFalse (by intro he; cases he)
  | .sel _ _, .sub _ => .isFalse (by intro he; cases he)
  | .sel e1 u1, .sel e2 u2 =>
      if h : e1 = e2 ∧ u1 = u2 then .isTrue (by rw [h.1, h.2])
      else .isFalse (by intro he; injection he; exact h ⟨by assumption, by assumption⟩)

/-- Decidable equality of segment lists. -/
def TSeg.decEqL : (a b : List TSeg) → Decidable (a = b)
  | [], [] => .isTrue rfl
  | [], _ :: _ => .isFalse (by intro he; cases he)
  | _ :: _, [] => .isFalse (by intro he; cases he)
  | a :: as, b :: bs =>
      match TSeg.decEq a b, TSeg.decEqL as bs with
      | .isTrue h1, .isTrue h2 => .isTrue (by rw [h1, h2])
      | .isFalse h1, _ => .isFalse (by intro he; injection he; contradiction)
      | _, .isFalse h2 => .isFalse (by intro he; injection he; contradiction)
end

instance : DecidableEq TSeg := TSeg.decEq

instance : DecidableEq (List TSeg) := TSeg.decEqL

instance : DecidableEq TObj := fun a b =>
  decidable_of_iff (a.lang = b.lang ∧ a.env = b.env ∧ a.text = b.text)
    (by cases a; cases b; simp)

/-- The attribute bag the post-DTD validator reads off one glossary
node via `getattr` with defaults (`construct.py`
`_post_dtd_check_keys`): absent scalar attributes read as `none`,
absent list attributes as `[]`. -/
structure NodeAtts where
  srcFile : Str := []
  srcLine : Nat := 0
  lang : Key := none
  env : List Key := []
  byAtt : Key := none
  src : Key := none
  gr : Key := none
  root : Key := none
  c : Key := none
  closeto : List Key := []
  topic : List Key := []
  level : List Key := []
  related : List Key := []
deriving DecidableEq, Repr

/-- `Environment.__init__` (`construct.py`): the `closeto` list
attribute is extracted with `_attrib_lists` (whitespace split, default
`[]`) and then `self.closeto.append(None)` makes every environment
close to the null environment. -/
def mkEnvironment (file : Str) (line : Nat) (closetoAttr : Option Str) : NodeAtts :=
  { srcFile := file, srcLine := line
    closeto := attrList closetoAttr [] ++ [none] }

/-- The `(language, environment) → ordered bucket` index of a `Dset`
(`dset.py` `self._data`). -/
abbrev DsetData := ALst Key (ALst Key (List TObj))

/-- `Dset.add`: resolve the object's language (own value, else nearest
ancestor via `_parent_att`) and environment list (own value, else
nearest ancestor, defaulting to `[None]`), then append the object to
every `(lang, env)` bucket, creating the language entry and the buckets
on demand. -/
def dsetAdd (chain : List AttBag) (data : DsetData) (obj : TObj) : DsetData :=
  let lang := match obj.lang with
    | none => parentAtt chain AttBag.lang none
    | some l => some l
  let envs := if obj.env = [] then parentAtt chain AttBag.env [none] else obj.env
  let m := (alGet data lang).getD []
  let m := envs.foldl (fun m env => alSet m env (((alGet m env).getD []) ++ [obj])) m
  alSet data lang m

/-- The two exceptions `Dset.__call__` can raise:
`self.gloss.environments[env]` on a key that is not a declared
environment (`KeyError`), and `self._parent_att("env", [None])[0]` on
an empty inherited environment list (`IndexError`). -/
inductive PyErr where
  | keyError
  | indexError
deriving DecidableEq, Repr

/-- `Dset.__call__(lang, env)`: default the language and the
environment from the parent chain, return `[]` for an unknown
language; on a missing `(lang, env)` bucket with a non-empty
`gloss.environments` dict, look the queried environment up in that
dict (KeyError when undeclared) and retry with the first `closeto`
environment, in declaration order, that has a bucket; finally return
the bucket, or `[]` when none. -/
def dsetCall (glossEnvs : ALst Str NodeAtts) (chain : List AttBag)
    (data : DsetData) (lang env : Key) : Except PyErr (List TObj) :=
  let lang := match lang with
    | none => parentAtt chain AttBag.lang none
    | some l => some l
  let envO : Option Key := match env with
    | none => (parentAtt chain AttBag.env [none]).head?
    | some e => some (some e)
  match envO with
  | none => .error .indexError
  | some env =>
    match alGet data lang with
    | none => .ok []
    | some buckets =>
      let fb : Except PyErr Key :=
        if (alGet buckets env).isNone && !glossEnvs.isEmpty then
          match env with
          | none => .error .keyError
          | some e =>
            match alGet glossEnvs e with
            | none => .error .keyError
            | some envnode =>
              .ok ((envnode.closeto.find? (fun ce => (alGet buckets ce).isSome)).getD env)
        else .ok env
      fb.bind (fun env => .ok ((alGet buckets env).getD []))

/-- `Dset.envs(lang)`: `None` for an unknown language, otherwise the
present environment keys together with every declared environment that
is `closeto` one of them. -/
def dsetEnvs (glossEnvs : ALst Str NodeAtts) (chain : List AttBag)
    (data : DsetData) (lang : Key) : Option (List Key) :=
  let lang := match lang with
    | none => parentAtt chain AttBag.lang none
    | some l => some l
  match alGet data lang with
  | none => none
  | some buckets =>
    some (buckets.foldl (fun acc p =>
      let acc := if p.1 ∈ acc then acc else acc ++ [p.1]
      glossEnvs.foldl (fun acc q =>
        if p.1 ∈ q.2.closeto ∧ (some q.1) ∉ acc then acc ++ [some q.1] else acc) acc) [])

/-- `Dset.rename_lang`: when the old language is present, pop it and
assign its environment map to the new language key. -/
def dsetRenameLang (data : DsetData) (olang nlang : Key) : DsetData :=
  match alGet data olang with
  | none => data
  | some m => alSet (alRemove data olang) nlang m

/-- `Dset.rename_env`: in every language's environment map, when the
old environment is present, pop it and assign its bucket to the new
environment key. -/
def dsetRenameEnv (data : DsetData) (oenv nenv : Key) : DsetData :=
  data.map (fun p =>
    match alGet p.2 oenv with
    | none => p
    | some b => (p.1, alSet (alRemove p.2 oenv) nenv b))

/-- A mutation of a `Dset` (`add` records the parent chain the Dset was
created with). -/
inductive DOp where
  | add (chain : List AttBag) (obj : TObj)
  | renameLang (o n : Key)
  | renameEnv (o n : Key)

/-- Run a sequence of Dset operations from a starting index. -/
def dsetRun (ops : List DOp) (d : DsetData) : DsetData :=
  ops.foldl (fun d op =>
    match op with
    | .add chain obj => dsetAdd chain d obj
    | .renameLang o n => dsetRenameLang d o n
    | .renameEnv o n => dsetRenameEnv d o n) d

/-- The Dset index invariant: every language key has at least one
environment bucket, and every bucket is a non-empty list. -/
def dsetInvB (d : DsetData) : Bool :=
  d.all (fun p => !p.2.isEmpty && p.2.all (fun q => !q.2.isEmpty))

/-- The Dset index invariant as a proposition. -/
def DsetInv (d : DsetData) : Prop := dsetInvB d = true

/-- The environment list an `add` of `obj` through `chain` resolves to
(the `envs` local of `Dset.add`). -/
def addEnvsResolved (chain : List AttBag) (obj : TObj) : List Key :=
  if obj.env = [] then parentAtt chain AttBag.env [none] else obj.env

/-- Well-formedness of one operation for the bucket invariant: an `add`
must resolve to a non-empty environment list (the spec's data model,
where `env` lists are never empty, guarantees this). -/
def opWF : DOp → Prop
  | .add chain obj => addEnvsResolved chain obj ≠ []
  | _ => True

/-- The recoverable warnings the selector resolver can emit
(`util.warning`: print and continue; never aborts construction). -/
inductive Warn where
  | unterminated (esel : Str)
  | repeatedEnvs (esel eseg : Str)
  | noResolution (env : Key) (esel : Str)
deriving DecidableEq

/-- Result of scanning one plain-string segment
(`_res_embsel_parse_one`): the replacement segments, the environment
keys seen, and the warnings, in emission order. -/
structure ParseRes where
  segs : List TSeg
  envs : List Key
  warns : List Warn

/-- The body of one `~...~` span (`_res_embsel_parse_one`, inner
`for eseg in seg[p1+1:p2].split("|")` loop): build the
environment→substring dictionary, collecting the environments assigned
so far and a warning for every alternative that re-assigns an already
assigned environment (the later assignment wins). -/
def parseAlts (denvs : List Key) (origSeg body : Str) :
    ALst Key Str × List Key × List Warn :=
  (splitOnChar '|' body).foldl
    (fun acc eseg =>
      let (envsegs, locenvs, ws) := acc
      let (cenvs, cseg) : List Key × Str :=
        match splitAtChar ':' eseg with
        | some (pre, post) => ((splitWS pre).map some, post)
        | none => (denvs, eseg)
      let ws := if cenvs.any (· ∈ locenvs) then ws ++ [.repeatedEnvs origSeg eseg] else ws
      let locenvs := cenvs.foldl (fun l e => if e ∈ l then l else l ++ [e]) locenvs
      let envsegs := cenvs.foldl (fun es e => alSet es e cseg) envsegs
      (envsegs, locenvs, ws))
    ([], [], [])

/-- `[.str s]` for a non-empty `s`, else nothing (`if head: ntext.append(head)`). -/
def strSegOf (s : Str) : List TSeg :=
  if s = [] then [] else [TSeg.str s]

/-- The scan loop of `_res_embsel_parse_one` on the `~`-separated
chunks of the segment (`p1`/`p2` pair consecutive tildes left to
right): one chunk left is the literal tail after the last selector;
two chunks left mean an opening `~` with no closing one — warn and
keep the text literally from that `~` on; otherwise the first chunk is
literal text, the second a selector body, and the rest is rescanned. -/
def parseChunks (denvs : List Key) (origSeg : Str) : List Str → ParseRes
  | [] => ⟨[], [], []⟩
  | [tail] => ⟨strSegOf tail, [], []⟩
  | [head, tail] => ⟨strSegOf head ++ [.str ('~' :: tail)], [], [.unterminated origSeg]⟩
  | head :: body :: c :: rest =>
      let (envsegs, locenvs, ws) := parseAlts denvs origSeg body
      let r := parseChunks denvs origSeg (c :: rest)
      ⟨strSegOf head ++ [.sel envsegs origSeg] ++ r.segs,
       listUnion locenvs r.envs,
       ws ++ r.warns⟩

/-- `_res_embsel_parse_one`: split one plain-string segment into
literal pieces and env→string selector dictionaries. -/
def parseOne (denvs : List Key) (seg : Str) : ParseRes :=
  parseChunks denvs seg (splitOnChar '~' seg)

/-- Result of `_res_embsel_norm_text`: the normalized text, all
environments seen, the original text as mutated in place (selector
segments unescaped via `seg.replace("~~", "~")`), and the warnings. -/
structure NormRes where
  ntext : List TSeg
  envs : List Key
  mutOrig : List TSeg
  warns : List Warn

mutual
/-- `_res_embsel_norm_text`, one segment: recurse into a nested `Text`
sub-list, scan a plain string containing `~` with
`_res_embsel_parse_one` (unescaping the original segment in place),
and keep a clean string as it is. -/
def normSeg (denvs : List Key) : TSeg → NormRes
  | .sub t =>
      let s := normText denvs t
      ⟨[.sub s.ntext], s.envs, [.sub s.mutOrig], s.warns⟩
  | .str s =>
      if '~' ∈ s then
        let p := parseOne denvs s
        ⟨p.segs, p.envs, [.str (unescapeTildes s)], p.warns⟩
      else ⟨[.str s], [], [.str s], []⟩
  | .sel entries unparsed =>
      ⟨[.sel entries unparsed], [], [.sel entries unparsed], []⟩

/-- `_res_embsel_norm_text`: walk the segments of a text tree,
concatenating replacement segments and accumulating the environment
union and the warnings. -/
def normText (denvs : List Key) : List TSeg → NormRes
  | [] => ⟨[], [], [], []⟩
  | seg :: rest =>
    let head := normSeg denvs seg
    let tail := normText denvs rest
    ⟨head.ntext ++ tail.ntext, listUnion head.envs tail.envs,
     head.mutOrig ++ tail.mutOrig, head.warns ++ tail.warns⟩
end

mutual
/-- `_res_embsel_best_text`, one segment: rebuild a normalized segment
for one target environment: take the selector entry for the
environment itself, else for the first `closeto` environment (in
declared order, one hop) of the target that has an entry, else warn
when the target is not one of the node's glossary-default environments
and fall back to an arbitrary entry — `random.choice(seg.values())`,
modelled by the `pick` oracle. -/
def bestSeg (glossEnvs : ALst Str NodeAtts) (glossEnv : List Key)
    (pick : ALst Key Str → Str) (env : Key) : TSeg → List TSeg × List Warn
  | .sub t =>
      let p := bestText glossEnvs glossEnv pick env t
      ([.sub p.1], p.2)
  | .str s => ([.str s], [])
  | .sel entries unparsed =>
      match alGet entries env with
      | some v => ([.str v], [])
      | none =>
        let closeHit : Option Key :=
          match env with
          | none => none
          | some e =>
            match alGet glossEnvs e with
            | none => none
            | some envnode => envnode.closeto.find? (fun ce => (alGet entries ce).isSome)
        match closeHit with
        | some ce => ([.str ((alGet entries ce).getD [])], [])
        | none =>
          let ws := if env ∈ glossEnv then [] else [Warn.noResolution env unparsed]
          ([.str (pick entries)], ws)

/-- `_res_embsel_best_text` over the segments of a text tree. -/
def bestText (glossEnvs : ALst Str NodeAtts) (glossEnv : List Key)
    (pick : ALst Key Str → Str) (env : Key) : List TSeg → List TSeg × List Warn
  | [] => ([], [])
  | seg :: rest =>
    let head := bestSeg glossEnvs glossEnv pick env seg
    let tail := bestText glossEnvs glossEnv pick env rest
    (head.1 ++ tail.1, head.2 ++ tail.2)
end

/-- `_res_embsel`: normalize the node's text; when no embedded
selector was found anywhere return the node itself (its text unescaped
in place), otherwise return one deep copy per environment seen, with
the `env` attribute narrowed to that single environment and the text
rebuilt by `_res_embsel_best_text`.  (The parent link is detached
before the deep copy and reattached on the copy; with value semantics
the copy simply keeps all other fields.) -/
def resEmbsel (glossEnvs : ALst Str NodeAtts) (glossEnv : List Key)
    (pick : ALst Key Str → Str) (obj : TObj) : List TObj × List Warn :=
  let n := normText obj.env obj.text
  if n.envs = [] then ([{ obj with text := n.mutOrig }], n.warns)
  else
    let copies := n.envs.map (fun env =>
      let (t, bw) := bestText glossEnvs glossEnv pick env n.ntext
      ({ obj with env := [env], text := t }, bw))
    (copies.map Prod.fst, n.warns ++ (copies.map Prod.snd).flatten)

/-- `_child_dsets` (inner loop): resolve a freshly constructed child
node's embedded selectors and add every resulting copy to the owning
d-set. -/
def childDsetAdd (glossEnvs : ALst Str NodeAtts) (glossEnv : List Key)
    (pick : ALst Key Str → Str) (chain : List AttBag)
    (data : DsetData) (obj : TObj) : DsetData × List Warn :=
  let (robjs, ws) := resEmbsel glossEnvs glossEnv pick obj
  (robjs.foldl (dsetAdd chain) data, ws)

mutual
/-- Plain characters of one segment (for stating what a resolved text
renders as). -/
def flatSeg : TSeg → Str
  | .str s => s
  | .sub t => flatText t
  | .sel _ _ => []

/-- Flatten a text tree to its plain characters. -/
def flatText : List TSeg → Str
  | [] => []
  | seg :: r => flatSeg seg ++ flatText r
end

/-- A generic markup element as handed over by the XML collaborator
(`lxml` in the source): tag, attributes, source line, children in
document order. -/
inductive XTree where
  | el (tag : Str) (atts : ALst Str Str) (line : Nat) (children : List XTree)

/-- Tag of an element. -/
def xTag : XTree → Str
  | .el tag _ _ _ => tag

/-- Attributes of an element. -/
def xAtts : XTree → ALst Str Str
  | .el _ atts _ _ => atts

/-- Source line of an element. -/
def xLine : XTree → Nat
  | .el _ _ line _ => line

/-- Children of an element. -/
def xChildren : XTree → List XTree
  | .el _ _ _ ch => ch

/-- `_attval`: attribute lookup with `None` default. -/
def xAtt (x : XTree) (name : Str) : Option Str := alGet (xAtts x) name

/-- `_child_els_by_tag` for a single tag name. -/
def childElsByTag (tag : Str) (ch : List XTree) : List XTree :=
  ch.filter (fun c => xTag c = tag)

mutual
/-- All `id` attribute values of a document, in document order
(the `tree.xpath("//*/@id")` scan of `from_file`). -/
def collectIds : XTree → List Str
  | .el _ atts _ ch =>
      (match alGet atts "id".toList with
       | some i => [i]
       | none => []) ++ collectIdsL ch

/-- `collectIds` over a child list. -/
def collectIdsL : List XTree → List Str
  | [] => []
  | t :: r => collectIds t ++ collectIdsL r
end

/-- The fatal construction errors of the modelled pipeline
(`util.error` prints and exits the process; modelled as `Except`). -/
inductive CErr where
  | dupId (i : Str)
  | keyErr (file : Str) (line : Nat) (att : Str) (key : Str)
  | keysErr (file : Str) (line : Nat) (att : Str) (badkeys : List Key)
deriving DecidableEq

/-- The duplicate-id scan of `from_file` (run before typed
construction): iterate all `id` values in document order, failing on
the first one already seen. -/
def checkDupIds (seen : List Str) : List Str → Except CErr Unit
  | [] => .ok ()
  | i :: r => if i ∈ seen then .error (.dupId i) else checkDupIds (i :: seen) r

/-- A typed concept node as the validator sees it: its own attribute
bag and the attribute bags of its owned descendant nodes (d-set
members and their subtrees), visited after it. -/
structure ConceptM where
  atts : NodeAtts
  children : List NodeAtts := []
deriving DecidableEq

/-- The completed glossary, scoped to what the modelled claims touch:
the root's own attributes, the keyed collections (keys for the ones
whose members carry no checked attributes of their own in this model;
full attribute bags for environments), and the concepts. -/
structure GlossM where
  atts : NodeAtts := {}
  languages : List Str := []
  environments : ALst Str NodeAtts := []
  editors : List Str := []
  sources : List Str := []
  topics : List Str := []
  levels : List Str := []
  grammar : List Str := []
  extroots : List Str := []
  concepts : ALst Str ConceptM := []
deriving DecidableEq

/-- `_post_dtd_ch_key`: a scalar reference attribute must be `None` or
a key of the relevant collection; otherwise a fatal error naming the
attribute, the key and the owning node's file and line. -/
def chKey (n : NodeAtts) (att : Str) (key : Key) (dom : List Str) : Except CErr Unit :=
  match key with
  | none => .ok ()
  | some k =>
      if k ∈ dom then .ok ()
      else .error (.keyErr n.srcFile n.srcLine att k)

/-- `_post_dtd_ch_keyseq`: every non-`None` member of a list reference
attribute must be a key of the relevant collection; otherwise a fatal
error naming the attribute and the bad keys. -/
def chKeyseq (n : NodeAtts) (att : Str) (keys : List Key) (dom : List Str) :
    Except CErr Unit :=
  let badkeys := keys.filter (fun k =>
    match k with
    | none => false
    | some s => decide (s ∉ dom))
  if badkeys = [] then .ok ()
  else .error (.keysErr n.srcFile n.srcLine att badkeys)

/-- The checks `_post_dtd_check_keys` runs on one node before the
`related` check, in source order. -/
def checkKeysPre (g : GlossM) (n : NodeAtts) : Except CErr Unit := do
  chKey n "lang".toList n.lang g.languages
  chKeyseq n "env".toList n.env (alKeys g.environments)
  chKey n "by".toList n.byAtt g.editors
  chKey n "src".toList n.src g.sources
  chKey n "gr".toList n.gr g.grammar
  chKey n "root".toList n.root g.extroots
  chKey n "c".toList n.c (alKeys g.concepts)
  chKeyseq n "closeto".toList n.closeto (alKeys g.environments)
  chKeyseq n "topic".toList n.topic g.topics
  chKeyseq n "level".toList n.level g.levels

/-- `_post_dtd_check_keys`: all reference checks of one node; the
`related` list is checked against the concepts collection, last. -/
def checkKeys (g : GlossM) (n : NodeAtts) : Except CErr Unit := do
  checkKeysPre g n
  chKeyseq n "related".toList n.related (alKeys g.concepts)

/-- `_post_dtd_in_node` over a list of attribute bags. -/
def checkNodes (g : GlossM) : List NodeAtts → Except CErr Unit
  | [] => .ok ()
  | n :: r => do
      checkKeys g n
      checkNodes g r

/-- `_post_dtd_in_node` on a concept: the concept's own checks first,
then its owned descendants. -/
def checkConcept (g : GlossM) (c : ConceptM) : Except CErr Unit := do
  checkKeys g c.atts
  checkNodes g c.children

/-- `_post_dtd_in_node` over the concepts collection. -/
def checkConcepts (g : GlossM) : ALst Str ConceptM → Except CErr Unit
  | [] => .ok ()
  | (_, c) :: r => do
      checkConcept g c
      checkConcepts g r

/-- `_post_dtd_validate`: the whole-tree referential pass, run once on
the completed glossary.  (CPython 2 iterates `__dict__` in unspecified
order; the model fixes: the root's own attributes, then the concepts,
then the environment entities.) -/
def postDtdValidate (g : GlossM) : Except CErr Unit := do
  checkKeys g g.atts
  checkConcepts g g.concepts
  checkNodes g (g.environments.map Prod.snd)

/-- Entries of one kind of keydef section
(`Glossary.__init__` keydefs loop). -/
def keydefEntries (t : XTree) (secTag entTag : Str) : List XTree :=
  ((childElsByTag ("keydefs".toList) (xChildren t)).map (fun kd =>
    ((childElsByTag secTag (xChildren kd)).map (fun s =>
      childElsByTag entTag (xChildren s))).flatten)).flatten

/-- The id a keyed child is stored under (`_child_dicts` uses `o.id`). -/
def xId (x : XTree) : Str := (xAtt x "id".toList).getD []

/-- The typed-construction pass (`from_tree` / `Glossary.__init__`),
scoped to the collections the claims touch: the root's `lang`/`env`
attributes, the keydef collections (environments with their `closeto`
attribute via `Environment.__init__`), and the concepts with their
`topic`/`level`/`related` list attributes. -/
def fromTreeModel (t : XTree) : GlossM :=
  { atts := { srcLine := xLine t
              lang := xAtt t "lang".toList
              env := attrList (xAtt t "env".toList) [none] }
    languages := (keydefEntries t "languages".toList "language".toList).map xId
    environments := (keydefEntries t "environments".toList "environment".toList).map
      (fun x => (xId x, mkEnvironment [] (xLine x) (xAtt x "closeto".toList)))
    editors := (keydefEntries t "editors".toList "editor".toList).map xId
    sources := (keydefEntries t "sources".toList "source".toList).map xId
    topics := (keydefEntries t "topics".toList "topic".toList).map xId
    levels := (keydefEntries t "levels".toList "level".toList).map xId
    grammar := (keydefEntries t "grammar".toList "gramm".toList).map xId
    extroots := (keydefEntries t "extroots".toList "extroot".toList).map xId
    concepts := ((childElsByTag "concepts".toList (xChildren t)).map (fun cs =>
      (childElsByTag "concept".toList (xChildren cs)).map (fun x =>
        (xId x,
         { atts := { srcLine := xLine x
                     topic := attrList (xAtt x "topic".toList) []
                     level := attrList (xAtt x "level".toList) []
                     related := attrList (xAtt x "related".toList) [] }
           : ConceptM })))).flatten }

/-- `from_file` with validation: the up-front duplicate-id scan over
the whole document, then (after the external DTD validation, not
modelled) the typed construction and the post-DTD referential pass;
without validation, construction only.  An `.error` result means the
process exits before any renderer sees a glossary. -/
def fromFileModel (validate : Bool) (t : XTree) : Except CErr GlossM :=
  if validate then do
    checkDupIds [] (collectIds t)
    let g := fromTreeModel t
    postDtdValidate g
    pure g
  else pure (fromTreeModel t)

/-- Dict lookup at the key just assigned. -/
theorem alGet_cons_self [DecidableEq κ] (k : κ) (v : ω) (r : ALst κ ω) :
    alGet ((k, v) :: r) k = some v := by
  simp [alGet]

/-- A concrete instantiation of the `random.choice` oracle
(used where a claim's scenario never reaches the arbitrary pick). -/
def pickFirst (entries : ALst Key Str) : Str :=
  (entries.head?.map Prod.snd).getD []

/-- C3: evaluating the resolver at the failing input.  The claim (and
the `# unescape segment` comment in `_res_embsel_norm_text`) say the
escaped tilde in `a~~b` yields the original node with the single
string `a~b`; the code instead parses `~~` as an *empty* selector
spanning the two tildes, so the node is replaced by one deep copy per
default environment, with text segments `a`, `` and `b` — rendering
`ab`, the tilde lost, and the unescaped original discarded. -/
theorem c3_escape_eval :
    resEmbsel [] [none] pickFirst
        { lang := some "l".toList, env := [none], text := [.str "a~~b".toList] } =
      ([{ lang := some "l".toList, env := [none],
          text := [.str "a".toList, .str [], .str "b".toList] }], []) ∧
    flatText [TSeg.str "a".toList, .str [], .str "b".toList] = "ab".toList ∧
    "ab".toList ≠ "a~b".toList ∧
    (normText [none] [.str "a~~b".toList]).mutOrig = [.str "a~b".toList] := by
  refine ⟨by decide, by decide, by decide, by decide⟩

/-- C4: a node with no explicit environment (so its `env` attribute is
the glossary default) whose text is exactly the selector
`~A:foo|B:bar~` expands into exactly two copies, one per selector
environment, with the `env` attribute narrowed to that single key and
the text replaced by the matching alternative; and `_child_dsets`
inserts both copies into the owning d-set, under the buckets
`(lang, A)` and `(lang, B)`. -/
theorem c4_selector_expansion (l : Str) (glossEnvs : ALst Str NodeAtts)
    (glossEnv : List Key) (pick : ALst Key Str → Str) (chain : List AttBag) :
    resEmbsel glossEnvs glossEnv pick
        { lang := some l, env := glossEnv, text := [.str "~A:foo|B:bar~".toList] } =
      ([{ lang := some l, env := [some "A".toList], text := [.str "foo".toList] },
        { lang := some l, env := [some "B".toList], text := [.str "bar".toList] }], []) ∧
    childDsetAdd glossEnvs glossEnv pick chain []
        { lang := some l, env := glossEnv, text := [.str "~A:foo|B:bar~".toList] } =
      ([(some l,
         [(some "A".toList,
           [{ lang := some l, env := [some "A".toList], text := [.str "foo".toList] }]),
          (some "B".toList,
           [{ lang := some l, env := [some "B".toList], text := [.str "bar".toList] }])])],
       []) := by
  have h1 : resEmbsel glossEnvs glossEnv pick
      { lang := some l, env := glossEnv, text := [.str "~A:foo|B:bar~".toList] } =
      ([{ lang := some l, env := [some "A".toList], text := [.str "foo".toList] },
        { lang := some l, env := [some "B".toList], text := [.str "bar".toList] }], []) := by
    rfl
  refine ⟨h1, ?_⟩
  simp only [childDsetAdd, h1]
  simp [dsetAdd, alGet, alSet]

/-- A successful dict lookup returns an entry of the dict. -/
theorem alGet_mem [DecidableEq κ] (d : ALst κ ω) (k : κ) (v : ω)
    (h : alGet d k = some v) : (k, v) ∈ d := by
  induction d with
  | nil => simp [alGet] at h
  | cons p r ih =>
      obtain ⟨k0, v0⟩ := p
      by_cases hk : k0 = k
      · subst hk
        simp [alGet] at h
        simp [h]
      · simp [alGet, hk] at h
        exact List.mem_cons_of_mem _ (ih h)

/-- `find?` only looks at the predicate's values on the list. -/
theorem find_congr (l : List α) (p q : α → Bool) (h : ∀ x ∈ l, p x = q x) :
    l.find? p = l.find? q := by
  induction l with
  | nil => rfl
  | cons a r ih =>
      have ha := h a (List.mem_cons_self a r)
      by_cases hp : p a = true
      · rw [List.find?_cons_of_pos _ hp, List.find?_cons_of_pos _ (ha ▸ hp)]
      · rw [List.find?_cons_of_neg _ (by simpa using hp),
          List.find?_cons_of_neg _ (by rw [← ha]; simpa using hp)]
        exact ih (fun x hx => h x (List.mem_cons_of_mem _ hx))

/-- C1, counterexample part: with at least one declared environment, a
query for a bucket-less but *undeclared* environment hits
`self.gloss.environments[env]` and raises `KeyError` — it does not
return `[]`.  Here language `L` is present (populated at `(L, B)`),
environment `A` is declared, and the query asks for `C`. -/
theorem c1_undeclared_env_error :
    dsetCall [("A".toList, mkEnvironment [] 0 none)] []
        [(some "L".toList, [(some "B".toList, [{ lang := some "L".toList }])])]
        (some "L".toList) (some "C".toList) = .error .keyError := by
  rfl

/-- C1, amended: when the queried environment *is* declared, the
fallback walks that environment's `closeto` list in declaration order
— a single hop, no transitive traversal — and returns the first
non-empty bucket found (bucket presence and non-emptiness coincide
under the Dset invariant, supplied as `hInv`); when no `closeto`
environment has a bucket, the query returns `[]`. -/
theorem c1_closeness_fallback (glossEnvs : ALst Str NodeAtts) (chain : List AttBag)
    (data : DsetData) (l e : Str) (buckets : ALst Key (List TObj)) (envnode : NodeAtts)
    (hBuckets : alGet data (some l) = some buckets)
    (hMiss : alGet buckets (some e) = none)
    (hDecl : alGet glossEnvs e = some envnode)
    (hInv : ∀ p ∈ buckets, p.2 ≠ []) :
    dsetCall glossEnvs chain data (some l) (some e) =
      .ok (match envnode.closeto.find? (fun ce => !((alGet buckets ce).getD []).isEmpty) with
           | some ce => (alGet buckets ce).getD []
           | none => []) := by
  have hne : glossEnvs.isEmpty = false := by
    cases glossEnvs with
    | nil => simp [alGet] at hDecl
    | cons p r => rfl
  have hpq : ∀ ce ∈ envnode.closeto,
      ((alGet buckets ce).isSome : Bool) = !((alGet buckets ce).getD []).isEmpty := by
    intro ce _
    cases hb : alGet buckets ce with
    | none => rfl
    | some b =>
        have : b ≠ [] := hInv (ce, b) (alGet_mem _ _ _ hb)
        simp [List.isEmpty_iff, this]
  simp only [dsetCall, hBuckets, hMiss, hne, Option.isNone_none, Bool.true_and,
    Bool.not_false, if_true, hDecl]
  rw [find_congr _ _ _ hpq]
  cases hf : envnode.closeto.find? (fun ce => !((alGet buckets ce).getD []).isEmpty) with
  | none => simp [Except.bind, hMiss]
  | some ce => simp [Except.bind]

/-- C1 witness: environment `A` declared `closeto` `Z B`; the Dset
populated only at `(L, B)`; `query(L, A)` skips `Z` (no bucket) and
returns the `B` bucket. -/
theorem c1_closeness_fallback_witness :
    dsetCall [("A".toList, mkEnvironment [] 0 (some "Z B".toList))] []
        [(some "L".toList, [(some "B".toList, [{ lang := some "L".toList }])])]
        (some "L".toList) (some "A".toList) = .ok [{ lang := some "L".toList }] := by
  have h := c1_closeness_fallback
    [("A".toList, mkEnvironment [] 0 (some "Z B".toList))] []
    [(some "L".toList, [(some "B".toList, [{ lang := some "L".toList }])])]
    "L".toList "A".toList
    [(some "B".toList, [{ lang := some "L".toList }])]
    (mkEnvironment [] 0 (some "Z B".toList))
    rfl rfl rfl (by decide)
  simpa using h

/-- The parent chain of the C2 counterexample: a term that overrides
the environment (`env="Y"`), its concept (no `lang`/`env` attributes),
and the glossary root (`lang="l"`, default `env` `["X"]`). -/
def c2Chain : List AttBag :=
  [{ lang := some (some "l".toList), env := some [some "Y".toList] },
   {},
   { lang := some (some "l".toList), env := some [some "X".toList] }]

/-- The C2 counterexample node: constructed with no explicit `lang` or
`env` attribute, so `_attributes`/`_attrib_lists` default both to the
*glossary root's* `gloss.lang`/`gloss.env` — not to the nearest
ancestor's values. -/
def c2Node : TObj :=
  { lang := attrScalar none (some "l".toList),
    env := attrList none [some "X".toList] }

/-- C2, counterexample part: the node (no explicit environment) is
nested under an ancestor — the term — whose resolved environment list
is `["Y"]`, yet querying the owning Dset without an explicit
environment returns `[]`, not the node: `add` files the node under the
glossary default `X` while the query-side default walks the parent
chain and finds the term's `Y`. -/
theorem c2_nearest_ancestor_counterexample :
    dsetCall [] c2Chain (dsetAdd c2Chain [] c2Node) none none = .ok [] ∧
    (Except.ok [] : Except PyErr (List TObj)) ≠ .ok [c2Node] := by
  exact ⟨rfl, by simp⟩

/-- C2, amended: the construction-time default for a missing
`environment` attribute is the glossary root's `gloss.env`, and the
query-side default is the nearest ancestor's on the Dset's parent
chain; when the two agree on `["X"]` (and likewise for the language
default), a node constructed without an explicit environment resolves
under `X` when the owning Dset is queried without one. -/
theorem c2_langenv_inheritance (chain : List AttBag) (glossEnvs : ALst Str NodeAtts)
    (glossLang : Key) (x : Str) (text : List TSeg)
    (hE : parentAtt chain AttBag.env [none] = [some x])
    (hL : glossLang = none ∨ parentAtt chain AttBag.lang none = glossLang) :
    dsetCall glossEnvs chain
        (dsetAdd chain []
          { lang := attrScalar none glossLang, env := attrList none [some x],
            text := text })
        none none =
      .ok [{ lang := attrScalar none glossLang, env := attrList none [some x],
             text := text }] := by
  have hadd : dsetAdd chain []
      { lang := attrScalar none glossLang, env := attrList none [some x], text := text } =
      [(parentAtt chain AttBag.lang none,
        [(some x, [{ lang := attrScalar none glossLang, env := attrList none [some x],
                     text := text }])])] := by
    rcases hL with h0 | h0
    · subst h0
      rfl
    · cases glossLang with
      | none => rfl
      | some g => simp [dsetAdd, attrScalar, attrList, h0, alGet, alSet]
  rw [hadd]
  simp [dsetCall, hE, alGet, Except.bind]

/-- C2 witness: a single-ancestor chain (the glossary root itself,
`lang="l"`, `env=["X"]`); the node resolves under `X`. -/
theorem c2_langenv_inheritance_witness :
    dsetCall [] [{ lang := some (some "l".toList), env := some [some "X".toList] }]
        (dsetAdd [{ lang := some (some "l".toList), env := some [some "X".toList] }] []
          { lang := attrScalar none (some "l".toList),
            env := attrList none [some "X".toList], text := [] })
        none none =
      .ok [{ lang := attrScalar none (some "l".toList),
             env := attrList none [some "X".toList], text := [] }] := by
  exact c2_langenv_inheritance
    [{ lang := some (some "l".toList), env := some [some "X".toList] }]
    [] (some "l".toList) "X".toList [] rfl (Or.inr rfl)

/-- C10: for a language — given, or defaulted from the parent chain —
with no bucket in the index, `envs` returns `None` (not a list), while
`__call__` returns the empty list (the language check precedes any
environment-closeness handling); a caller iterating `envs`'s result
must handle `None`. -/
theorem c10_envs_none_vs_query_empty (glossEnvs : ALst Str NodeAtts)
    (chain : List AttBag) (data : DsetData) (lang env : Key)
    (hL : alGet data (match lang with
                      | none => parentAtt chain AttBag.lang none
                      | some l => some l) = none)
    (hw : env ≠ none ∨ parentAtt chain AttBag.env [none] ≠ []) :
    dsetEnvs glossEnvs chain data lang = none ∧
    dsetCall glossEnvs chain data lang env = .ok [] := by
  constructor
  · simp only [dsetEnvs, hL]
  · cases env with
    | some e => simp only [dsetCall, hL]
    | none =>
        have hne : parentAtt chain AttBag.env [none] ≠ [] := by
          rcases hw with h | h
          · exact absurd rfl h
          · exact h
        cases hp : parentAtt chain AttBag.env [none] with
        | nil => exact absurd hp hne
        | cons e r => simp only [dsetCall, hp, List.head?_cons, hL]

/-- C10 witness: an empty Dset with a glossary-root chain; `envs`
gives `None`, the query gives `[]`. -/
theorem c10_envs_none_vs_query_empty_witness :
    dsetEnvs [] [{ lang := some (some "l".toList), env := some [none] }] [] none = none ∧
    dsetCall [] [{ lang := some (some "l".toList), env := some [none] }] [] none none =
      .ok [] := by
  exact c10_envs_none_vs_query_empty []
    [{ lang := some (some "l".toList), env := some [none] }] [] none none rfl
    (Or.inr (by decide))

/-- `find?` skips a block of elements the predicate rejects. -/
theorem find_of_forall_false (l₁ l₂ : List α) (p : α → Bool)
    (h : ∀ x ∈ l₁, p x = false) : (l₁ ++ l₂).find? p = l₂.find? p := by
  induction l₁ with
  | nil => rfl
  | cons a r ih =>
      rw [List.cons_append, List.find?_cons_of_neg _ (by simp [h a (List.mem_cons_self a r)])]
      exact ih (fun x hx => h x (List.mem_cons_of_mem _ hx))

/-- C9: a constructed Environment's `closeto` is the declared keys, in
declaration order, followed by one implicit final entry for the null
environment; consequently during closeness fallback the null
environment is tried last — when none of the declared `closeto`
environments has a bucket but the null environment does, the query
returns the null environment's bucket. -/
theorem c9_closeto_null_implicit_last (closetoAttr : Option Str) (file : Str) (line : Nat) :
    (mkEnvironment file line closetoAttr).closeto = attrList closetoAttr [] ++ [none] ∧
    (mkEnvironment file line closetoAttr).closeto.getLast? = some none ∧
    (∀ (chain : List AttBag) (glossEnvs : ALst Str NodeAtts) (data : DsetData)
       (l e : Str) (buckets : ALst Key (List TObj)) (b : List TObj),
       alGet glossEnvs e = some (mkEnvironment file line closetoAttr) →
       alGet data (some l) = some buckets →
       alGet buckets (some e) = none →
       (∀ k ∈ attrList closetoAttr [], alGet buckets k = none) →
       alGet buckets none = some b →
       dsetCall glossEnvs chain data (some l) (some e) = .ok b) := by
  refine ⟨rfl, by simp [mkEnvironment, List.getLast?_concat], ?_⟩
  intro chain glossEnvs data l e buckets b hDecl hBuckets hMiss hNoDecl hNull
  have hne : glossEnvs.isEmpty = false := by
    cases glossEnvs with
    | nil => simp [alGet] at hDecl
    | cons p r => rfl
  have hfind : (mkEnvironment file line closetoAttr).closeto.find?
      (fun ce => (alGet buckets ce).isSome) = some none := by
    show ((attrList closetoAttr [] ++ [none]).find? fun ce => (alGet buckets ce).isSome) =
      some none
    rw [find_of_forall_false _ _ _ (fun k hk => by simp [hNoDecl k hk])]
    simp [List.find?, hNull]
  simp only [dsetCall, hBuckets, hMiss, hne, Option.isNone_none, Bool.true_and,
    Bool.not_false, if_true, hDecl, hfind]
  simp [Except.bind, hNull]

/-- C9 witness: `closeto="Z"` declared, no `Z` bucket, a null-env
bucket present: the query falls back to the null environment. -/
theorem c9_closeto_null_implicit_last_witness :
    (mkEnvironment [] 7 (some "Z".toList)).closeto =
      [some "Z".toList, none] ∧
    dsetCall [("A".toList, mkEnvironment [] 7 (some "Z".toList))] []
        [(some "L".toList, [(none, [{ lang := some "L".toList }])])]
        (some "L".toList) (some "A".toList) = .ok [{ lang := some "L".toList }] := by
  refine ⟨by decide, ?_⟩
  exact (c9_closeto_null_implicit_last (some "Z".toList) [] 7).2.2 []
    [("A".toList, mkEnvironment [] 7 (some "Z".toList))]
    [(some "L".toList, [(none, [{ lang := some "L".toList }])])]
    "L".toList "A".toList [(none, [{ lang := some "L".toList }])]
    [{ lang := some "L".toList }] rfl rfl rfl (by decide) rfl

/-- Dict assignment never yields the empty dict. -/
theorem alSet_ne_nil [DecidableEq κ] (m : ALst κ ω) (k : κ) (v : ω) :
    alSet m k v ≠ [] := by
  cases m with
  | nil => simp [alSet]
  | cons p r =>
      obtain ⟨k0, v0⟩ := p
      by_cases h : k0 = k <;> simp [alSet, h]

/-- An entry of a dict after assignment is the assigned pair or an old
entry. -/
theorem mem_alSet [DecidableEq κ] (m : ALst κ ω) (k : κ) (v : ω) (p : κ × ω)
    (h : p ∈ alSet m k v) : p = (k, v) ∨ p ∈ m := by
  induction m with
  | nil => simpa [alSet] using h
  | cons q r ih =>
      obtain ⟨k0, v0⟩ := q
      by_cases hk : k0 = k
      · subst hk
        simp only [alSet, if_pos rfl] at h
        rcases List.mem_cons.mp h with h | h
        · exact Or.inl (by simpa using h)
        · exact Or.inr (List.mem_cons_of_mem _ h)
      · simp only [alSet, if_neg hk] at h
        rcases List.mem_cons.mp h with h | h
        · exact Or.inr (by simp [h])
        · rcases ih h with h | h
          · exact Or.inl h
          · exact Or.inr (List.mem_cons_of_mem _ h)

/-- An entry of a dict after removal was an entry before. -/
theorem mem_alRemove [DecidableEq κ] (m : ALst κ ω) (k : κ) (p : κ × ω)
    (h : p ∈ alRemove m k) : p ∈ m := by
  induction m with
  | nil => simp [alRemove] at h
  | cons q r ih =>
      obtain ⟨k0, v0⟩ := q
      by_cases hk : k0 = k
      · subst hk
        simp only [alRemove, if_pos rfl] at h
        exact List.mem_cons_of_mem _ h
      · simp only [alRemove, if_neg hk] at h
        rcases List.mem_cons.mp h with h | h
        · simp [h]
        · exact List.mem_cons_of_mem _ (ih h)

instance (d : DsetData) : Decidable (DsetInv d) :=
  decidable_of_iff (dsetInvB d = true) Iff.rfl

instance : DecidablePred opWF := fun op =>
  match op with
  | .add chain obj => inferInstanceAs (Decidable (addEnvsResolved chain obj ≠ []))
  | .renameLang _ _ => inferInstanceAs (Decidable True)
  | .renameEnv _ _ => inferInstanceAs (Decidable True)

/-- The membership form of the Dset invariant. -/
theorem dsetInv_iff (d : DsetData) :
    DsetInv d ↔ ∀ p ∈ d, p.2 ≠ [] ∧ ∀ q ∈ p.2, q.2 ≠ [] := by
  simp [DsetInv, dsetInvB, List.all_eq_true, List.isEmpty_iff]

/-- The bucket-appending fold of `Dset.add` keeps every bucket
non-empty. -/
theorem addFold_buckets_ne_nil (envs : List Key) (obj : TObj)
    (m : ALst Key (List TObj)) (hm : ∀ q ∈ m, q.2 ≠ []) :
    ∀ q ∈ envs.foldl (fun m env => alSet m env (((alGet m env).getD []) ++ [obj])) m,
      q.2 ≠ [] := by
  induction envs generalizing m with
  | nil => simpa using hm
  | cons e r ih =>
      intro q hq
      refine ih _ ?_ q hq
      intro q' hq'
      rcases mem_alSet _ _ _ _ hq' with h | h
      · subst h
        simp
      · exact hm q' h

/-- The bucket-appending fold of `Dset.add` yields a non-empty map
when started from a non-empty map. -/
theorem addFold_ne_nil_of_ne_nil (envs : List Key) (obj : TObj)
    (m : ALst Key (List TObj)) (hm : m ≠ []) :
    envs.foldl (fun m env => alSet m env (((alGet m env).getD []) ++ [obj])) m ≠ [] := by
  induction envs generalizing m with
  | nil => simpa using hm
  | cons e r ih => exact ih _ (alSet_ne_nil _ _ _)

/-- `Dset.add` preserves the invariant when the resolved environment
list is non-empty. -/
theorem dsetAdd_inv (chain : List AttBag) (d : DsetData) (obj : TObj)
    (hd : DsetInv d) (henvs : addEnvsResolved chain obj ≠ []) :
    DsetInv (dsetAdd chain d obj) := by
  rw [dsetInv_iff] at hd ⊢
  simp only [dsetAdd]
  intro p hp
  rcases mem_alSet _ _ _ _ hp with h | h
  · subst h
    set lang := match obj.lang with
      | none => parentAtt chain AttBag.lang none
      | some l => some l with hlang
    have hm0 : ∀ q ∈ (alGet d lang).getD [], q.2 ≠ [] := by
      cases hg : alGet d lang with
      | none => simp
      | some m0 =>
          intro q hq
          exact (hd _ (alGet_mem _ _ _ hg)).2 q (by simpa using hq)
    constructor
    · cases he : addEnvsResolved chain obj with
      | nil => exact absurd he henvs
      | cons e r =>
          show List.foldl _ ((alGet d lang).getD []) (addEnvsResolved chain obj) ≠ []
          rw [he]
          exact addFold_ne_nil_of_ne_nil r obj _ (alSet_ne_nil _ _ _)
    · show ∀ q ∈ List.foldl _ ((alGet d lang).getD []) (addEnvsResolved chain obj), q.2 ≠ []
      exact addFold_buckets_ne_nil _ obj _ hm0
  · exact hd p h

/-- `Dset.rename_lang` preserves the invariant. -/
theorem dsetRenameLang_inv (d : DsetData) (o n : Key) (hd : DsetInv d) :
    DsetInv (dsetRenameLang d o n) := by
  rw [dsetInv_iff] at hd ⊢
  simp only [dsetRenameLang]
  cases hg : alGet d o with
  | none => exact hd
  | some m =>
      intro p hp
      rcases mem_alSet _ _ _ _ hp with h | h
      · subst h
        exact hd (o, m) (alGet_mem d o m hg)
      · exact hd p (mem_alRemove _ _ _ h)

/-- `Dset.rename_env` preserves the invariant. -/
theorem dsetRenameEnv_inv (d : DsetData) (o n : Key) (hd : DsetInv d) :
    DsetInv (dsetRenameEnv d o n) := by
  rw [dsetInv_iff] at hd ⊢
  simp only [dsetRenameEnv]
  intro p hp
  rcases List.mem_map.mp hp with ⟨q, hq, hpq⟩
  obtain ⟨l, m⟩ := q
  have hinv := hd _ hq
  cases hg : alGet m o with
  | none =>
      simp only [hg] at hpq
      subst hpq
      exact hinv
  | some b =>
      simp only [hg] at hpq
      subst hpq
      constructor
      · exact alSet_ne_nil _ _ _
      · intro q' hq'
        rcases mem_alSet _ _ _ _ hq' with h | h
        · subst h
          exact hinv.2 (o, b) (alGet_mem m o b hg)
        · exact hinv.2 _ (mem_alRemove _ _ _ h)

/-- C7, counterexample part: an `add` whose resolved environment list
is empty — an object with an empty `env` attribute (e.g. `env=""` in
markup) under a parent whose own `env` attribute is empty — creates a
language key with *no* environment bucket, breaking the invariant. -/
theorem c7_empty_env_counterexample :
    ¬ DsetInv (dsetRun
        [DOp.add [{ env := some [] }] { lang := some "l".toList, env := [] }] []) := by
  decide

/-- C7, amended: after any sequence of `add` and rename operations in
which every `add` resolves to a non-empty environment list (as the
spec's data model — environment lists never empty — guarantees), every
language key has at least one environment bucket and every bucket is a
non-empty ordered list. -/
theorem c7_invariant (ops : List DOp) (d : DsetData) (hd : DsetInv d)
    (hwf : ∀ op ∈ ops, opWF op) : DsetInv (dsetRun ops d) := by
  induction ops generalizing d with
  | nil => simpa [dsetRun] using hd
  | cons op r ih =>
      have hstep : DsetInv (dsetRun [op] d) := by
        cases op with
        | add chain obj =>
            exact dsetAdd_inv chain d obj hd (hwf _ (List.mem_cons_self _ _))
        | renameLang o n => exact dsetRenameLang_inv d o n hd
        | renameEnv o n => exact dsetRenameEnv_inv d o n hd
      have : dsetRun (op :: r) d = dsetRun r (dsetRun [op] d) := by
        cases op <;> rfl
      rw [this]
      exact ih _ hstep (fun op' h => hwf op' (List.mem_cons_of_mem _ h))

/-- C7 witness: an add, a language rename and an environment rename,
starting from the empty index, keep the invariant. -/
theorem c7_invariant_witness :
    DsetInv (dsetRun
      [DOp.add [{ lang := some (some "l".toList), env := some [none] }]
         { lang := some "l".toList, env := [some "X".toList] },
       DOp.renameLang (some "l".toList) (some "m".toList),
       DOp.renameEnv (some "X".toList) (some "Y".toList)] []) := by
  exact c7_invariant _ [] (by decide) (by decide)

/-- Splitting never yields an empty chunk list. -/
theorem splitOnChar_ne_nil (c : Char) (s : Str) : splitOnChar c s ≠ [] := by
  cases s with
  | nil => simp [splitOnChar]
  | cons a r =>
      by_cases h : a = c
      · simp [splitOnChar, h]
      · simp only [splitOnChar, if_neg h]
        cases splitOnChar c r <;> simp

/-- A separator occurrence splits the chunk lists of the two sides. -/
theorem splitOnChar_append_cons (c : Char) (a b : Str) :
    splitOnChar c (a ++ c :: b) = splitOnChar c a ++ splitOnChar c b := by
  induction a with
  | nil => simp [splitOnChar]
  | cons x a' ih =>
      by_cases h : x = c
      · simp [splitOnChar, h, ih]
      · cases hsp : splitOnChar c a' with
        | nil => exact absurd hsp (splitOnChar_ne_nil c a')
        | cons hh tt =>
            simp only [List.cons_append, splitOnChar, if_neg h, List.append_eq]
            rw [ih, hsp]
            simp

/-- A string without the separator is a single chunk. -/
theorem splitOnChar_of_not_mem (c : Char) (s : Str) (h : c ∉ s) :
    splitOnChar c s = [s] := by
  induction s with
  | nil => rfl
  | cons a r ih =>
      have ha : ¬ a = c := fun he => h (he ▸ List.mem_cons_self a r)
      have hr : c ∉ r := fun hm => h (List.mem_cons_of_mem _ hm)
      simp [splitOnChar, ha, ih hr]

/-- The number of chunks is one more than the number of separators. -/
theorem length_splitOnChar (c : Char) (s : Str) :
    (splitOnChar c s).length = countChar c s + 1 := by
  induction s with
  | nil => simp [splitOnChar, countChar]
  | cons a r ih =>
      by_cases h : a = c
      · subst h
        simp [splitOnChar, countChar, List.count_cons] at ih ⊢
        omega
      · simp only [splitOnChar, if_neg h]
        cases hsp : splitOnChar c r with
        | nil => exact absurd hsp (splitOnChar_ne_nil c r)
        | cons hh tt =>
            rw [hsp] at ih
            simp only [List.length_cons] at ih ⊢
            have : countChar c (a :: r) = countChar c r := by
              simp [countChar, List.count_cons, Ne.symm h]
            omega

/-- The scan of `_res_embsel_parse_one` on an even chunk list (an odd
number of tildes): the final pairing step finds an opening tilde with
no closing one, emits the unterminated-selector warning last, and ends
the replacement text with the literal remainder from that tilde on. -/
theorem parseChunks_unterm (denvs : List Key) (orig : Str) :
    ∀ chunks t, chunks.length % 2 = 0 → chunks.getLast? = some t →
    ∃ segs envs ws, parseChunks denvs orig chunks =
      ⟨segs ++ [.str ('~' :: t)], envs, ws ++ [.unterminated orig]⟩ := by
  intro chunks
  induction chunks using parseChunks.induct denvs orig with
  | case1 =>
      intro t _ hlast
      simp at hlast
  | case2 tail =>
      intro t hlen _
      simp at hlen
  | case3 head tail =>
      intro t _ hlast
      have ht : tail = t := by
        simpa [List.getLast?] using hlast
      subst ht
      exact ⟨strSegOf head, [], [], rfl⟩
  | case4 head body ch rest envsegs locenvs ws heq ih =>
      intro t hlen hlast
      have hlen' : (ch :: rest).length % 2 = 0 := by
        simp only [List.length_cons] at hlen ⊢
        omega
      have hlast' : (ch :: rest).getLast? = some t := by
        rw [← hlast]
        simp [List.getLast?_cons_cons]
      obtain ⟨segs, envs, ws', hr⟩ := ih t hlen' hlast'
      refine ⟨strSegOf head ++ [.sel envsegs orig] ++ segs,
        listUnion locenvs envs, ws ++ ws', ?_⟩
      simp only [parseChunks, heq, hr]
      simp

/-- C8: a plain-string segment with an opening `~` that is never
closed (an even chunk count: the tildes before it pair up as complete
selectors): the resolver emits the non-fatal unterminated-selector
warning (`util.warning` prints and continues; nothing aborts), and the
replacement text ends with the segment kept literally from that
opening `~` onward — the malformed span contributes no selector. -/
theorem c8_unterminated_selector (denvs : List Key) (s r₁ r₂ : Str)
    (hs : s = r₁ ++ '~' :: r₂) (heven : countChar '~' r₁ % 2 = 0)
    (hnot : '~' ∉ r₂) :
    ∃ segs envs ws, parseOne denvs s =
      ⟨segs ++ [.str ('~' :: r₂)], envs, ws ++ [Warn.unterminated s]⟩ := by
  subst hs
  have hchunks : splitOnChar '~' (r₁ ++ '~' :: r₂) = splitOnChar '~' r₁ ++ [r₂] := by
    rw [splitOnChar_append_cons, splitOnChar_of_not_mem _ _ hnot]
  have hlen : (splitOnChar '~' r₁ ++ [r₂]).length % 2 = 0 := by
    simp [length_splitOnChar]
    omega
  have hlast : (splitOnChar '~' r₁ ++ [r₂]).getLast? = some r₂ :=
    List.getLast?_concat _
  have h := parseChunks_unterm denvs (r₁ ++ '~' :: r₂)
    (splitOnChar '~' r₁ ++ [r₂]) r₂ hlen hlast
  simpa [parseOne, hchunks] using h

/-- C8 witness: the segment `a~b`. -/
theorem c8_unterminated_selector_witness :
    ∃ segs envs ws, parseOne [none] "a~b".toList =
      ⟨segs ++ [.str ('~' :: "b".toList)], envs,
       ws ++ [Warn.unterminated "a~b".toList]⟩ := by
  exact c8_unterminated_selector [none] "a~b".toList "a".toList "b".toList
    (by decide) (by decide) (by decide)

/-- If the duplicate-id scan succeeds, the ids are distinct (and none
was seen before). -/
theorem checkDupIds_ok_nodup (seen : List Str) (l : List Str)
    (h : checkDupIds seen l = .ok ()) : l.Nodup ∧ ∀ i ∈ l, i ∉ seen := by
  induction l generalizing seen with
  | nil => simp
  | cons a r ih =>
      by_cases ha : a ∈ seen
      · simp [checkDupIds, ha] at h
      · simp only [checkDupIds, if_neg ha] at h
        obtain ⟨hnd, hns⟩ := ih (a :: seen) h
        refine ⟨List.nodup_cons.mpr ⟨fun hm => ?_, hnd⟩, ?_⟩
        · exact hns a hm (List.mem_cons_self _ _)
        · intro i hi
          rcases List.mem_cons.mp hi with h0 | h0
          · subst h0
            exact ha
          · exact fun hm => hns i h0 (List.mem_cons_of_mem _ hm)

/-- If the duplicate-id scan fails, the reported id is a `dupId` error
for an id occurring in the scanned list, and — when nothing was
pre-seen — occurring at least twice. -/
theorem checkDupIds_error_dup (seen : List Str) (l : List Str) (e : CErr)
    (h : checkDupIds seen l = .error e) :
    ∃ i, e = .dupId i ∧ i ∈ l ∧ (i ∈ seen ∨ 2 ≤ l.count i) := by
  induction l generalizing seen with
  | nil => simp [checkDupIds] at h
  | cons a r ih =>
      by_cases ha : a ∈ seen
      · simp only [checkDupIds, if_pos ha] at h
        injection h with h
        exact ⟨a, h.symm, List.mem_cons_self _ _, Or.inl ha⟩
      · simp only [checkDupIds, if_neg ha] at h
        obtain ⟨i, he, hir, hor⟩ := ih (a :: seen) h
        refine ⟨i, he, List.mem_cons_of_mem _ hir, ?_⟩
        rcases hor with hs | hc
        · rcases List.mem_cons.mp hs with h0 | h0
          · subst h0
            refine Or.inr ?_
            have h1 : 1 ≤ r.count i := List.one_le_count_iff.mpr hir
            rw [List.count_cons_self]
            omega
          · exact Or.inl h0
        · refine Or.inr ?_
          have := (List.sublist_cons_self a r).count_le i
          omega

/-- C5: a document with a repeated `id` attribute value anywhere — not
only among siblings — makes `from_file` fail on the up-front scan of
all `id` attributes, with a duplicate-id error, before typed node
construction and the referential pass run and before any renderer can
see a glossary. -/
theorem c5_duplicate_id_fatal (t : XTree) (hdup : ¬ (collectIds t).Nodup) :
    ∃ i, fromFileModel true t = .error (.dupId i) ∧
      2 ≤ (collectIds t).count i := by
  cases hc : checkDupIds [] (collectIds t) with
  | ok u =>
      cases u
      exact absurd (checkDupIds_ok_nodup [] _ hc).1 hdup
  | error e =>
      obtain ⟨i, he, _, hor⟩ := checkDupIds_error_dup [] _ e hc
      subst he
      refine ⟨i, ?_, ?_⟩
      · simp [fromFileModel, hc, Bind.bind, Except.bind]
      · rcases hor with h | h
        · simp at h
        · exact h

/-- C5 witness input: the duplicate ids sit on an ancestor and a
nested descendant, not on siblings. -/
def c5Tree : XTree :=
  .el "glossary".toList [] 1
    [.el "concepts".toList [] 2
       [.el "concept".toList [("id".toList, "x".toList)] 3
          [.el "term".toList [("id".toList, "x".toList)] 4 []]]]

/-- C5 witness. -/
theorem c5_duplicate_id_fatal_witness :
    ¬ (collectIds c5Tree).Nodup ∧
    ∃ i, fromFileModel true c5Tree = .error (.dupId i) ∧
      2 ≤ (collectIds c5Tree).count i := by
  exact ⟨by decide, c5_duplicate_id_fatal c5Tree (by decide)⟩

/-- A successful prefix of concept checks passes the walk on. -/
theorem checkConcepts_append_ok (g : GlossM) (l₁ l₂ : ALst Str ConceptM)
    (h : checkConcepts g l₁ = .ok ()) :
    checkConcepts g (l₁ ++ l₂) = checkConcepts g l₂ := by
  induction l₁ with
  | nil => rfl
  | cons p r ih =>
      obtain ⟨k, c⟩ := p
      simp only [checkConcepts, Bind.bind, Except.bind] at h ⊢
      cases hc : checkConcept g c with
      | error e => simp [hc] at h
      | ok u =>
          cases u
          rw [hc] at h
          exact ih h

/-- A successful `Except` bind means both stages succeeded. -/
theorem exceptBind_ok {ε : Type} {e : Except ε Unit} {f : Unit → Except ε Unit}
    (h : e.bind f = .ok ()) : e = .ok () ∧ f () = .ok () := by
  cases e with
  | error x => simp [Except.bind] at h
  | ok u =>
      cases u
      exact ⟨rfl, h⟩

/-- If the walk over the concepts succeeds, every concept's own checks
succeeded. -/
theorem checkConcepts_ok_of_mem (g : GlossM) (l : ALst Str ConceptM)
    (cid : Str) (c : ConceptM) (h : checkConcepts g l = .ok ())
    (hm : (cid, c) ∈ l) : checkKeys g c.atts = .ok () := by
  induction l with
  | nil => simp at hm
  | cons p r ih =>
      obtain ⟨k0, c0⟩ := p
      simp only [checkConcepts, Bind.bind] at h
      obtain ⟨h1, h2⟩ := exceptBind_ok h
      rcases List.mem_cons.mp hm with h0 | h0
      · have hc : c = c0 := (Prod.ext_iff.mp h0).2
        subst hc
        simp only [checkConcept, Bind.bind] at h1
        exact (exceptBind_ok h1).1
      · exact ih h2 h0

/-- C6: a concept whose `related` list holds a key absent from the
concepts collection makes the referential validator fail: the pass can
never succeed on such a glossary, and — whenever the walk reaches that
check first (the root's checks, the concepts before it and the
concept's earlier attribute checks all pass) — the fatal error carries
the offending attribute name, the bad keys (the dangling key among
them) and the owning node's source file and line. -/
theorem c6_dangling_related (g : GlossM) (cid : Str) (c : ConceptM) (k : Str)
    (hmem : (cid, c) ∈ g.concepts)
    (hk : (some k) ∈ c.atts.related)
    (hmiss : k ∉ alKeys g.concepts) :
    postDtdValidate g ≠ .ok () ∧
    (∀ pre post, g.concepts = pre ++ (cid, c) :: post →
      checkKeys g g.atts = .ok () →
      checkConcepts g pre = .ok () →
      checkKeysPre g c.atts = .ok () →
      ∃ badkeys, postDtdValidate g =
          .error (.keysErr c.atts.srcFile c.atts.srcLine "related".toList badkeys) ∧
        (some k) ∈ badkeys) := by
  set badkeys := c.atts.related.filter (fun x =>
    match x with
    | none => false
    | some s => decide (s ∉ alKeys g.concepts)) with hbk
  have hkmem : (some k) ∈ badkeys := by
    rw [hbk]
    exact List.mem_filter.mpr ⟨hk, by simpa using hmiss⟩
  have hne : badkeys ≠ [] := List.ne_nil_of_mem hkmem
  have hseq : chKeyseq c.atts "related".toList c.atts.related (alKeys g.concepts) =
      .error (.keysErr c.atts.srcFile c.atts.srcLine "related".toList badkeys) := by
    simp only [chKeyseq, ← hbk, if_neg hne]
  constructor
  · intro hok
    simp only [postDtdValidate, Bind.bind] at hok
    obtain ⟨_, hok⟩ := exceptBind_ok hok
    obtain ⟨hconc, _⟩ := exceptBind_ok hok
    have hck := checkConcepts_ok_of_mem g g.concepts cid c hconc hmem
    simp only [checkKeys, Bind.bind] at hck
    obtain ⟨_, hseq'⟩ := exceptBind_ok hck
    rw [hseq] at hseq'
    exact absurd hseq' (by simp)
  · intro pre post hsplit hgloss hpre hcpre
    have hck : checkKeys g c.atts =
        .error (.keysErr c.atts.srcFile c.atts.srcLine "related".toList badkeys) := by
      simp only [checkKeys, Bind.bind, Except.bind, hcpre, hseq]
    refine ⟨badkeys, ?_, hkmem⟩
    simp only [postDtdValidate, Bind.bind, Except.bind, hgloss, hsplit]
    rw [checkConcepts_append_ok g pre _ hpre]
    simp only [checkConcepts, checkConcept, Bind.bind, Except.bind, hck]

/-- C6 witness glossary: one concept, `related="ghost"`, no concept
with id `ghost`. -/
def c6Gloss : GlossM :=
  { concepts := [("a".toList,
      { atts := { srcFile := "f".toList, srcLine := 5,
                  related := [some "ghost".toList] } })] }

/-- C6 witness. -/
theorem c6_dangling_related_witness :
    postDtdValidate c6Gloss ≠ .ok () ∧
    (∃ badkeys, postDtdValidate c6Gloss =
        .error (.keysErr "f".toList 5 "related".toList badkeys) ∧
      (some "ghost".toList) ∈ badkeys) := by
  have h := c6_dangling_related c6Gloss
    "a".toList
    { atts := { srcFile := "f".toList, srcLine := 5,
                related := [some "ghost".toList] } }
    "ghost".toList (by decide) (by decide) (by decide)
  exact ⟨h.1, h.2 [] [] rfl rfl rfl rfl⟩
